import Mathlib

set_option linter.unusedSectionVars false
set_option linter.unusedVariables false

/-!
Shallow embedding of the in-memory LRU cache with TTL expiry from the
vahlcode-og repository (the `LRUCache` class of `src/cache.ts`), together
with the font-resolver cache-key construction and shared cache instance
from `src/font.ts`.

The TypeScript cache is backed by a JavaScript `Map`, which iterates its
entries in insertion order.  We model the map as an association list in
insertion order (oldest entry first, matching `Map.prototype.keys()`),
the clock `Date.now()` as an explicit `Nat` argument to each operation,
and the JavaScript number `Infinity` (the default `ttl`) with the
two-point extension `JSTime`.  Each mutating method becomes a
state-passing function returning its result together with the new state.
-/

/-- JavaScript numbers as used for `ttl` and `expiresAt` in `src/cache.ts`:
a natural number of milliseconds or `Infinity` (the constructor default
for `ttl`). -/
inductive JSTime where
  | num : Nat → JSTime
  | inf : JSTime
deriving DecidableEq, Repr

/-- The expression `Date.now() + this.ttl`: a finite clock reading plus a
possibly infinite duration. -/
def JSTime.addTo (now : Nat) : JSTime → JSTime
  | num t => num (now + t)
  | inf => inf

/-- The comparison `Date.now() > entry.expiresAt` used by `get` and `has`;
it is false whenever `expiresAt` is `Infinity`. -/
def JSTime.ltNow (now : Nat) : JSTime → Bool
  | num t => decide (t < now)
  | inf => false

namespace JSMap

variable {K E : Type} [DecidableEq K]

/-- The lookup `Map.prototype.get`, searching in insertion order (a real
`Map` holds at most one entry per key). -/
def get : List (K × E) → K → Option E
  | [], _ => none
  | (a, e) :: rest, k => if a = k then some e else get rest k

/-- The membership test `Map.prototype.has`. -/
def hasKey : List (K × E) → K → Bool
  | [], _ => false
  | (a, _) :: rest, k => a = k || hasKey rest k

/-- The state effect of `Map.prototype.delete`: removes the entry stored
under `k`.  A `Map` never holds two entries with the same key, so removing
every occurrence agrees with removing the single one. -/
def erase : List (K × E) → K → List (K × E)
  | [], _ => []
  | (a, e) :: rest, k => if a = k then erase rest k else (a, e) :: erase rest k

/-- The update `Map.prototype.set`: overwrites in place when the key is
present (keeping its position in insertion order), otherwise appends at
the most-recent end. -/
def insert : List (K × E) → K → E → List (K × E)
  | [], k, e => [(k, e)]
  | (a, b) :: rest, k, e =>
      if a = k then (k, e) :: rest else (a, b) :: insert rest k e

end JSMap

/-- In the source, the eviction guard of `set` tests
`oldestKey !== undefined`, where `oldestKey` is
`this.cache.keys().next().value` of TypeScript type `K | undefined`.
When the key type `K` itself admits the value `undefined`, this test
cannot tell an empty map apart from a map whose first key is the value
`undefined`.  The class records, for each Lean type standing in for a
TypeScript key type, which inhabitants denote the JavaScript value
`undefined`. -/
class JSKey (K : Type) where
  isUndefined : K → Bool

/-- A string key is never the value `undefined`. -/
instance : JSKey String := ⟨fun _ => false⟩

/-- A natural-number key is never the value `undefined`. -/
instance : JSKey Nat := ⟨fun _ => false⟩

/-- A key type that admits `undefined`: here `none` stands for the
JavaScript value `undefined` and `some s` for the string `s`. -/
instance : JSKey (Option String) := ⟨fun k => k.isNone⟩

/-- The record `CacheEntry<V>` of `src/cache.ts`: a stored value plus its
absolute expiry instant. -/
structure CacheEntry (V : Type) where
  value : V
  expiresAt : JSTime
deriving DecidableEq, Repr

/-- The options bag `CacheOptions` of `src/types.ts`: both fields are
optional (`maxSize?: number`, `ttl?: number`). -/
structure CacheOptions where
  maxSize : Option Nat := none
  ttl : Option JSTime := none
deriving Repr

/-- The class `LRUCache<K, V>` of `src/cache.ts`: the private backing
`Map` (as an insertion-ordered association list, oldest first) and the
two configuration fields. -/
structure LRUCache (K V : Type) where
  cache : List (K × CacheEntry V)
  maxSize : Nat
  ttl : JSTime
deriving Repr

namespace LRUCache

variable {K V : Type} [DecidableEq K] [JSKey K]

/-- The constructor: `this.maxSize = options.maxSize ?? 50` and
`this.ttl = options.ttl ?? Infinity`, starting from an empty map. -/
def new (options : CacheOptions) : LRUCache K V :=
  { cache := []
    maxSize := options.maxSize.getD 50
    ttl := options.ttl.getD JSTime.inf }

/-- Method `get(key)`: returns `undefined` on a miss; deletes the entry
and returns `undefined` when `Date.now() > entry.expiresAt`; otherwise
promotes the key to most-recently-used by delete-then-reinsert and
returns the stored value. -/
def get (c : LRUCache K V) (key : K) (now : Nat) : Option V × LRUCache K V :=
  match JSMap.get c.cache key with
  | none => (none, c)
  | some entry =>
      if JSTime.ltNow now entry.expiresAt then
        (none, { c with cache := JSMap.erase c.cache key })
      else
        (some entry.value,
         { c with cache := JSMap.insert (JSMap.erase c.cache key) key entry })

/-- First step of method `set`: `if (this.cache.has(key)) this.cache.delete(key)`,
so a re-inserted key goes to the end. -/
def setStep1 (c : LRUCache K V) (key : K) : List (K × CacheEntry V) :=
  if JSMap.hasKey c.cache key then JSMap.erase c.cache key else c.cache

/-- Second step of method `set`: when `this.cache.size >= this.maxSize`,
take `oldestKey = this.cache.keys().next().value` and delete it under the
guard `oldestKey !== undefined`.  An empty map and a first key equal to
the value `undefined` both fail the guard. -/
def setStep2 (maxSize : Nat) (m : List (K × CacheEntry V)) : List (K × CacheEntry V) :=
  if maxSize ≤ m.length then
    match m.head? with
    | some (oldestKey, _) =>
        if JSKey.isUndefined oldestKey then m else JSMap.erase m oldestKey
    | none => m
  else m

/-- Method `set(key, value)`: delete the key if present, evict the oldest
entry when at capacity, then insert with
`expiresAt: Date.now() + this.ttl`. -/
def set (c : LRUCache K V) (key : K) (value : V) (now : Nat) : LRUCache K V :=
  { c with
    cache := JSMap.insert (setStep2 c.maxSize (setStep1 c key)) key
      ⟨value, JSTime.addTo now c.ttl⟩ }

/-- Method `has(key)`: same absence and expiry behaviour as `get`,
including the lazy removal of an expired entry, but with no recency
promotion on a live hit. -/
def has (c : LRUCache K V) (key : K) (now : Nat) : Bool × LRUCache K V :=
  match JSMap.get c.cache key with
  | none => (false, c)
  | some entry =>
      if JSTime.ltNow now entry.expiresAt then
        (false, { c with cache := JSMap.erase c.cache key })
      else (true, c)

/-- Method `delete(key)`: `return this.cache.delete(key)` — the Boolean is
whether the key was physically present, with no expiry check. -/
def delete (c : LRUCache K V) (key : K) : Bool × LRUCache K V :=
  (JSMap.hasKey c.cache key, { c with cache := JSMap.erase c.cache key })

/-- Method `clear()`. -/
def clear (c : LRUCache K V) : LRUCache K V := { c with cache := [] }

/-- Getter `size`: the number of (possibly expired) entries currently in
the backing map. -/
def size (c : LRUCache K V) : Nat := c.cache.length

/-- Runs a sequence of `set` calls, each given as a key, a value, and the
clock reading at which the call happens. -/
def runSets (c : LRUCache K V) : List (K × V × Nat) → LRUCache K V
  | [] => c
  | (k, v, t) :: rest => runSets (c.set k v t) rest

end LRUCache

/-- The record `FontConfig` of `src/types.ts`; the binary `ArrayBuffer`
payload is modelled as a list of bytes. -/
structure FontConfig where
  name : String
  data : Option (List Nat) := none
  weight : Option Nat := none
  style : Option String := none
  url : Option String := none
deriving DecidableEq, Repr

/-- Function `fontCacheKey` of `src/font.ts`: the template literal joining
family, weight and style with `:` separators. -/
def fontCacheKey (family : String) (weight : Nat) (style : String) : String :=
  family ++ ":" ++ toString weight ++ ":" ++ style

/-- The shared instance `fontCache` of `src/font.ts`, constructed with
`maxSize: 30` and `ttl: 30 * 60 * 1000`. -/
def fontCache : LRUCache String FontConfig :=
  LRUCache.new { maxSize := some 30, ttl := some (JSTime.num (30 * 60 * 1000)) }

/-- An empty capacity-3 cache of string keys and numeric values with the
default unbounded ttl, as in the spec scenarios. -/
def cap3 : LRUCache String Nat :=
  LRUCache.new { maxSize := some 3 }

/-- Keys `a`, `b`, `c` inserted in that order at clock 0 into `cap3`. -/
def cacheABC : LRUCache String Nat :=
  ((cap3.set "a" 1 0).set "b" 2 0).set "c" 3 0

/-- Scenario of the LRU-order property: after `a`, `b`, `c`, set `d`. -/
def lruScenario : LRUCache String Nat := cacheABC.set "d" 4 0

/-- State after the first probe `get "a"` of the LRU-order scenario. -/
def lruScenarioA : LRUCache String Nat := (lruScenario.get "a" 0).2

/-- State after the second probe `get "b"` of the LRU-order scenario. -/
def lruScenarioB : LRUCache String Nat := (lruScenarioA.get "b" 0).2

/-- State after the third probe `get "c"` of the LRU-order scenario. -/
def lruScenarioC : LRUCache String Nat := (lruScenarioB.get "c" 0).2

/-- Scenario of the promotion-on-read property: after `a`, `b`, `c`, read
`a`, then set `d`. -/
def promoteScenario : LRUCache String Nat := ((cacheABC.get "a" 0).2).set "d" 4 0

/-- State after the probe `get "b"` of the promotion scenario. -/
def promoteScenarioB : LRUCache String Nat := (promoteScenario.get "b" 0).2

/-- State after the subsequent probe `get "a"` of the promotion scenario. -/
def promoteScenarioA : LRUCache String Nat := (promoteScenarioB.get "a" 0).2

/-- State after the subsequent probe `get "c"` of the promotion scenario. -/
def promoteScenarioC : LRUCache String Nat := (promoteScenarioA.get "c" 0).2

/-- Scenario for the membership-test property: after `a`, `b`, `c`, call
`has "a"` (a hit), then set `d`. -/
def hasScenario : LRUCache String Nat := ((cacheABC.has "a" 0).2).set "d" 4 0

/-- A cache with `ttl = 10` holding a single entry for `k` written at
clock 0, hence `expiresAt = 10`; at clock 11 the entry has expired. -/
def expiredCache : LRUCache String Nat :=
  (LRUCache.new { maxSize := some 3, ttl := some (JSTime.num 10) }).set "k" 5 0

/-- A capacity-1 cache over a key type that admits `undefined`, filled by
storing one entry under the key `undefined` (modelled as `none`). -/
def undefKeyCache : LRUCache (Option String) Nat :=
  (LRUCache.new { maxSize := some 1 }).set none 0 0

/-- A fresh cache with `ttl = 1000` and the default capacity. -/
def ttlCache : LRUCache String Nat :=
  LRUCache.new { ttl := some (JSTime.num 1000) }

namespace JSMap

variable {K E : Type} [DecidableEq K]

/-- A key is reported absent by `hasKey` exactly when `get` misses. -/
theorem hasKey_eq_false_iff {m : List (K × E)} {k : K} :
    hasKey m k = false ↔ get m k = none := by
  induction m with
  | nil => simp [hasKey, get]
  | cons p rest ih =>
      obtain ⟨a, e⟩ := p
      by_cases h : a = k <;> simp [hasKey, get, h, ih]

/-- Erasing a key removes it from the map. -/
theorem hasKey_erase_self (m : List (K × E)) (k : K) :
    hasKey (erase m k) k = false := by
  induction m with
  | nil => simp [erase, hasKey]
  | cons p rest ih =>
      obtain ⟨a, e⟩ := p
      by_cases h : a = k <;> simp [erase, hasKey, h, ih]

/-- Erasing one key introduces no other key. -/
theorem hasKey_erase_of_not {m : List (K × E)} {j k : K}
    (h : hasKey m k = false) : hasKey (erase m j) k = false := by
  induction m with
  | nil => simpa [erase] using h
  | cons p rest ih =>
      obtain ⟨a, e⟩ := p
      simp only [hasKey, Bool.or_eq_false_iff, decide_eq_false_iff_not] at h
      by_cases hj : a = j <;>
        simp [erase, hasKey, hj, h.1, ih h.2]

/-- Erasing never lengthens the map. -/
theorem length_erase_le (m : List (K × E)) (k : K) :
    (erase m k).length ≤ m.length := by
  induction m with
  | nil => simp [erase]
  | cons p rest ih =>
      obtain ⟨a, e⟩ := p
      by_cases h : a = k <;> simp [erase, h] <;> omega

/-- Erasing the key of the head entry drops the length below the original. -/
theorem length_erase_head (k : K) (e : E) (rest : List (K × E)) :
    (erase ((k, e) :: rest) k).length ≤ rest.length := by
  simp only [erase, if_pos rfl]
  exact length_erase_le rest k

/-- Inserting an absent key appends the new entry at the recent end. -/
theorem insert_eq_append {m : List (K × E)} {k : K} (h : hasKey m k = false)
    (e : E) : insert m k e = m ++ [(k, e)] := by
  induction m with
  | nil => simp [insert]
  | cons p rest ih =>
      obtain ⟨a, b⟩ := p
      simp only [hasKey, Bool.or_eq_false_iff, decide_eq_false_iff_not] at h
      simp [insert, h.1, ih h.2]

/-- Looking up a key that occurs only as the final appended entry. -/
theorem get_append_single {m : List (K × E)} {k : K} (h : hasKey m k = false)
    (e : E) : get (m ++ [(k, e)]) k = some e := by
  induction m with
  | nil => simp [get]
  | cons p rest ih =>
      obtain ⟨a, b⟩ := p
      simp only [hasKey, Bool.or_eq_false_iff, decide_eq_false_iff_not] at h
      simp [get, h.1, ih h.2]

/-- A map containing a key is nonempty. -/
theorem length_pos_of_hasKey {m : List (K × E)} {k : K}
    (h : hasKey m k = true) : 1 ≤ m.length := by
  cases m with
  | nil => simp [hasKey] at h
  | cons p rest => simp

end JSMap

/-- Adding any ttl to the current instant never lands strictly in the past,
so an entry written at clock `now` is never already expired at clock `now`. -/
theorem JSTime.ltNow_addTo_self (now : Nat) (t : JSTime) :
    JSTime.ltNow now (JSTime.addTo now t) = false := by
  cases t <;> simp [JSTime.ltNow, JSTime.addTo]

namespace LRUCache

variable {K V : Type} [DecidableEq K] [JSKey K]

/-- After the delete-if-present step of `set`, the key is absent. -/
theorem hasKey_setStep1 (c : LRUCache K V) (k : K) :
    JSMap.hasKey (c.setStep1 k) k = false := by
  unfold setStep1
  by_cases h : JSMap.hasKey c.cache k
  · simp [h, JSMap.hasKey_erase_self]
  · simp only [Bool.not_eq_true] at h
    simp [h]

/-- The eviction step of `set` introduces no new key. -/
theorem hasKey_setStep2 {n : Nat} {m : List (K × CacheEntry V)} {k : K}
    (h : JSMap.hasKey m k = false) :
    JSMap.hasKey (setStep2 (K := K) (V := V) n m) k = false := by
  unfold setStep2
  split
  · cases hm : m.head? with
    | none => simpa [hm] using h
    | some p =>
        obtain ⟨a, e⟩ := p
        by_cases hu : JSKey.isUndefined a <;>
          simp [hm, hu, h, JSMap.hasKey_erase_of_not h]
  · exact h

/-- The entry just written by `set` is retrievable and carries
`expiresAt = now + ttl`. -/
theorem get_set_self (c : LRUCache K V) (k : K) (v : V) (now : Nat) :
    JSMap.get (c.set k v now).cache k = some ⟨v, JSTime.addTo now c.ttl⟩ := by
  have h1 : JSMap.hasKey (c.setStep1 k) k = false := hasKey_setStep1 c k
  have h2 : JSMap.hasKey (setStep2 c.maxSize (c.setStep1 k)) k = false :=
    hasKey_setStep2 h1
  show JSMap.get (JSMap.insert (setStep2 c.maxSize (c.setStep1 k)) k _) k = _
  rw [JSMap.insert_eq_append h2]
  exact JSMap.get_append_single h2 _

/-- The key just written by `set` is physically present. -/
theorem hasKey_set_self (c : LRUCache K V) (k : K) (v : V) (now : Nat) :
    JSMap.hasKey (c.set k v now).cache k = true := by
  by_contra h
  simp only [Bool.not_eq_true] at h
  rw [JSMap.hasKey_eq_false_iff, get_set_self] at h
  exact Option.noConfusion h

/-- The delete-if-present step never lengthens the map. -/
theorem length_setStep1_le (c : LRUCache K V) (k : K) :
    (c.setStep1 k).length ≤ c.cache.length := by
  unfold setStep1
  split
  · exact JSMap.length_erase_le _ _
  · exact Nat.le_refl _

/-- When the map is at or above a positive capacity and no key is the
JavaScript value `undefined`, the eviction step strictly shrinks it. -/
theorem length_setStep2_lt {n : Nat} {m : List (K × CacheEntry V)}
    (hU : ∀ x : K, JSKey.isUndefined x = false)
    (hn : 0 < n) (hle : n ≤ m.length) :
    (setStep2 (K := K) (V := V) n m).length < m.length := by
  cases m with
  | nil => simp at hle; omega
  | cons p rest =>
      obtain ⟨a, e⟩ := p
      unfold setStep2
      rw [if_pos hle]
      simp only [List.head?_cons, hU a, Bool.false_eq_true, if_false]
      have := JSMap.length_erase_head a e rest
      simp only [List.length_cons]
      omega

/-- The eviction step never lengthens the map. -/
theorem length_setStep2_le (n : Nat) (m : List (K × CacheEntry V)) :
    (setStep2 (K := K) (V := V) n m).length ≤ m.length := by
  unfold setStep2
  split
  · cases hm : m.head? with
    | none => simp
    | some p =>
        obtain ⟨a, e⟩ := p
        by_cases hu : JSKey.isUndefined a <;> simp [hu, JSMap.length_erase_le]
  · exact Nat.le_refl _

/-- Core capacity step: when no key denotes `undefined` and the capacity is
positive, a single `set` keeps the size within `maxSize`. -/
theorem size_set_le (hU : ∀ x : K, JSKey.isUndefined x = false)
    (c : LRUCache K V) (k : K) (v : V) (now : Nat)
    (hn : 0 < c.maxSize) (hsz : c.size ≤ c.maxSize) :
    (c.set k v now).size ≤ c.maxSize := by
  have h1 : JSMap.hasKey (c.setStep1 k) k = false := hasKey_setStep1 c k
  have h2 : JSMap.hasKey (setStep2 c.maxSize (c.setStep1 k)) k = false :=
    hasKey_setStep2 h1
  have hsize : (c.set k v now).size =
      (setStep2 c.maxSize (c.setStep1 k)).length + 1 := by
    show (JSMap.insert (setStep2 c.maxSize (c.setStep1 k)) k _).length = _
    rw [JSMap.insert_eq_append h2]
    simp
  rw [hsize]
  have hs1 : (c.setStep1 k).length ≤ c.cache.length := length_setStep1_le c k
  by_cases hfull : c.maxSize ≤ (c.setStep1 k).length
  · have hlt : (setStep2 c.maxSize (c.setStep1 k)).length < (c.setStep1 k).length :=
      length_setStep2_lt hU hn hfull
    have : c.cache.length ≤ c.maxSize := hsz
    omega
  · unfold setStep2
    rw [if_neg hfull]
    omega

/-- Every `set` preserves the configured capacity. -/
theorem maxSize_set (c : LRUCache K V) (k : K) (v : V) (now : Nat) :
    (c.set k v now).maxSize = c.maxSize := rfl

/-- Running a sequence of `set` calls preserves the size bound. -/
theorem size_runSets_le (hU : ∀ x : K, JSKey.isUndefined x = false)
    (c : LRUCache K V) (l : List (K × V × Nat))
    (hn : 0 < c.maxSize) (hsz : c.size ≤ c.maxSize) :
    (runSets c l).size ≤ c.maxSize := by
  induction l generalizing c with
  | nil => exact hsz
  | cons p rest ih =>
      obtain ⟨k, v, t⟩ := p
      exact ih (c.set k v t) hn (size_set_le hU c k v t hn hsz)

end LRUCache

/-- C1: Capacity invariant — for every sequence of `set` calls with
distinct keys on a cache constructed with a positive `maxSize`,
immediately after any single `set` returns (that is, after any prefix of
the sequence), `size` is at most `maxSize`. -/
theorem capacity_invariant {V : Type} (m : Nat) (t : JSTime)
    (ops pre rest : List (String × V × Nat))
    (hm : 0 < m)
    (hkeys : (ops.map fun p => p.1).Nodup)
    (hsplit : ops = pre ++ rest) :
    (LRUCache.runSets
      (LRUCache.new { maxSize := some m, ttl := some t } : LRUCache String V)
      pre).size ≤ m :=
  LRUCache.size_runSets_le (fun _ => rfl) _ pre hm (Nat.zero_le _)

/-- Witness for C1 at capacity 2 and three distinct keys. -/
theorem capacity_invariant_witness :
    (LRUCache.runSets
      (LRUCache.new { maxSize := some 2, ttl := some JSTime.inf } : LRUCache String Nat)
      [("a", 1, 0), ("b", 2, 0), ("c", 3, 0)]).size ≤ 2 :=
  capacity_invariant 2 JSTime.inf
    [("a", 1, 0), ("b", 2, 0), ("c", 3, 0)]
    [("a", 1, 0), ("b", 2, 0), ("c", 3, 0)] []
    (by decide) (by decide) (by decide)

/-- C2: LRU order and promotion on read — inserting `a`, `b`, `c` into a
capacity-3 cache and then setting `d` evicts `a` (`get "a"` misses while
`get "b"`, `get "c"`, `get "d"` all hit, threaded through the states the
probes produce); whereas inserting `a`, `b`, `c`, reading `a`, then
setting `d` evicts `b` and not `a`, because the read promoted `a` to
most-recently-used. -/
theorem lru_order_and_promotion_on_read :
    (lruScenario.get "a" 0).1 = none ∧
    (lruScenarioA.get "b" 0).1 = some 2 ∧
    (lruScenarioB.get "c" 0).1 = some 3 ∧
    (lruScenarioC.get "d" 0).1 = some 4 ∧
    (cacheABC.get "a" 0).1 = some 1 ∧
    (promoteScenario.get "b" 0).1 = none ∧
    (promoteScenarioB.get "a" 0).1 = some 1 ∧
    (promoteScenarioA.get "c" 0).1 = some 3 ∧
    (promoteScenarioC.get "d" 0).1 = some 4 := by decide

/-- C3: TTL expiry — with a finite `ttl`, after `set k v` at clock `T`,
any `get k` or `has k` at a clock strictly greater than `T + ttl` reports
absent and removes the entry (lazy cleanup); at any clock at most
`T + ttl`, with no intervening operation, `get k` returns `v` and `has k`
returns `true`. -/
theorem ttl_expiry {V : Type} (c : LRUCache String V) (k : String) (v : V)
    (t T Tlate Tlive : Nat)
    (httl : c.ttl = JSTime.num t)
    (hlate : T + t < Tlate)
    (hlive : Tlive ≤ T + t) :
    ((c.set k v T).get k Tlate).1 = none ∧
    JSMap.hasKey ((c.set k v T).get k Tlate).2.cache k = false ∧
    ((c.set k v T).has k Tlate).1 = false ∧
    JSMap.hasKey ((c.set k v T).has k Tlate).2.cache k = false ∧
    ((c.set k v T).get k Tlive).1 = some v ∧
    ((c.set k v T).has k Tlive).1 = true := by
  have hget : JSMap.get (c.set k v T).cache k = some ⟨v, JSTime.num (T + t)⟩ := by
    rw [LRUCache.get_set_self, httl]
    rfl
  have hlateB : JSTime.ltNow Tlate (JSTime.num (T + t)) = true := by
    simp only [JSTime.ltNow, decide_eq_true_eq]
    omega
  have hliveB : JSTime.ltNow Tlive (JSTime.num (T + t)) = false := by
    simp only [JSTime.ltNow, decide_eq_false_iff_not]
    omega
  refine ⟨?_, ?_, ?_, ?_, ?_, ?_⟩ <;>
    simp [LRUCache.get, LRUCache.has, hget, hlateB, hliveB, JSMap.hasKey_erase_self]

/-- Witness for C3 with `ttl = 1000`, a write at clock 0, an expired probe
at clock 1001, and a live probe at clock 1000. -/
theorem ttl_expiry_witness :
    ((ttlCache.set "k" 5 0).get "k" 1001).1 = none ∧
    JSMap.hasKey ((ttlCache.set "k" 5 0).get "k" 1001).2.cache "k" = false ∧
    ((ttlCache.set "k" 5 0).has "k" 1001).1 = false ∧
    JSMap.hasKey ((ttlCache.set "k" 5 0).has "k" 1001).2.cache "k" = false ∧
    ((ttlCache.set "k" 5 0).get "k" 1000).1 = some 5 ∧
    ((ttlCache.set "k" 5 0).has "k" 1000).1 = true :=
  ttl_expiry ttlCache "k" 5 1000 0 1001 1000 rfl (by decide) (by decide)

/-- C4: Overwriting an existing key never evicts a third, unrelated key —
with capacity 3 and live keys `a`, `b`, `c` present, `set b w` leaves `a`
and `c` present, `size` stays 3, and a subsequent `get b` returns the new
value. -/
theorem overwrite_does_not_evict {V : Type} (a b c : String)
    (ea eb ec : CacheEntry V) (w : V) (t : JSTime) (n : Nat)
    (hab : a ≠ b) (hac : a ≠ c) (hbc : b ≠ c)
    (hla : JSTime.ltNow n ea.expiresAt = false)
    (hlb : JSTime.ltNow n eb.expiresAt = false)
    (hlc : JSTime.ltNow n ec.expiresAt = false) :
    ((⟨[(a, ea), (b, eb), (c, ec)], 3, t⟩ : LRUCache String V).set b w n).size = 3 ∧
    ((((⟨[(a, ea), (b, eb), (c, ec)], 3, t⟩ : LRUCache String V).set b w n).get a n).1
      = some ea.value) ∧
    ((((⟨[(a, ea), (b, eb), (c, ec)], 3, t⟩ : LRUCache String V).set b w n).get c n).1
      = some ec.value) ∧
    ((((⟨[(a, ea), (b, eb), (c, ec)], 3, t⟩ : LRUCache String V).set b w n).get b n).1
      = some w) := by
  have hba : b ≠ a := hab.symm
  have hca : c ≠ a := hac.symm
  have hcb : c ≠ b := hbc.symm
  have hcache : ((⟨[(a, ea), (b, eb), (c, ec)], 3, t⟩ : LRUCache String V).set b w n).cache
      = [(a, ea), (c, ec), (b, ⟨w, JSTime.addTo n t⟩)] := by
    simp [LRUCache.set, LRUCache.setStep1, LRUCache.setStep2,
      JSMap.hasKey, JSMap.erase, JSMap.insert, hab, hcb]
  refine ⟨?_, ?_, ?_, ?_⟩ <;>
    simp [LRUCache.size, LRUCache.get, JSMap.get, hcache, hab, hac, hcb,
      hla, hlc, JSTime.ltNow_addTo_self]

/-- Witness for C4 with keys a, b, c, never-expiring entries, and the
overwrite value 42. -/
theorem overwrite_does_not_evict_witness :
    ((⟨[("a", ⟨1, JSTime.inf⟩), ("b", ⟨2, JSTime.inf⟩), ("c", ⟨3, JSTime.inf⟩)],
        3, JSTime.inf⟩ : LRUCache String Nat).set "b" 42 0).size = 3 ∧
    ((((⟨[("a", ⟨1, JSTime.inf⟩), ("b", ⟨2, JSTime.inf⟩), ("c", ⟨3, JSTime.inf⟩)],
        3, JSTime.inf⟩ : LRUCache String Nat).set "b" 42 0).get "a" 0).1 = some 1) ∧
    ((((⟨[("a", ⟨1, JSTime.inf⟩), ("b", ⟨2, JSTime.inf⟩), ("c", ⟨3, JSTime.inf⟩)],
        3, JSTime.inf⟩ : LRUCache String Nat).set "b" 42 0).get "c" 0).1 = some 3) ∧
    ((((⟨[("a", ⟨1, JSTime.inf⟩), ("b", ⟨2, JSTime.inf⟩), ("c", ⟨3, JSTime.inf⟩)],
        3, JSTime.inf⟩ : LRUCache String Nat).set "b" 42 0).get "b" 0).1 = some 42) :=
  overwrite_does_not_evict "a" "b" "c" ⟨1, JSTime.inf⟩ ⟨2, JSTime.inf⟩ ⟨3, JSTime.inf⟩
    42 JSTime.inf 0 (by decide) (by decide) (by decide) rfl rfl rfl

/-- C5: `has` does not promote recency on a live hit — after inserting
`a`, `b`, `c` into a capacity-3 cache, `has "a"` returns `true`, yet
setting the fresh key `d` afterwards still evicts `a`, while `b`, `c`,
`d` remain retrievable. -/
theorem has_does_not_promote :
    (cacheABC.has "a" 0).1 = true ∧
    JSMap.hasKey hasScenario.cache "a" = false ∧
    (hasScenario.get "a" 0).1 = none ∧
    (hasScenario.get "b" 0).1 = some 2 ∧
    ((hasScenario.get "b" 0).2.get "c" 0).1 = some 3 ∧
    (((hasScenario.get "b" 0).2.get "c" 0).2.get "d" 0).1 = some 4 := by decide

/-- C6 counterexample: at clock 11 the single entry of `expiredCache`
(written at clock 0 with `ttl = 10`, so `expiresAt = 10`) has expired —
`has` reports absent — yet `delete "k"`, called directly on that state,
returns `true`, not `false` as the claim requires. -/
theorem delete_expired_returns_true :
    JSMap.get expiredCache.cache "k" = some ⟨5, JSTime.num 10⟩ ∧
    (expiredCache.has "k" 11).1 = false ∧
    (expiredCache.delete "k").1 = true := by decide

/-- C6 (amended): `delete` returns whether the key was physically present,
with no expiry check; consequently `delete` on an absent key returns
`false`, and `delete` on an expired key returns `false` only after a
preceding `has` or `get` has lazily removed the entry. -/
theorem delete_returns_physical_presence {V : Type} (c : LRUCache String V)
    (k : String) (n : Nat) (e : CacheEntry V)
    (hget : JSMap.get c.cache k = some e)
    (hexp : JSTime.ltNow n e.expiresAt = true) :
    (∀ (d : LRUCache String V) (j : String),
        (d.delete j).1 = JSMap.hasKey d.cache j) ∧
    ((c.has k n).2.delete k).1 = false ∧
    ((c.get k n).2.delete k).1 = false := by
  refine ⟨fun d j => rfl, ?_, ?_⟩ <;>
    simp [LRUCache.has, LRUCache.get, LRUCache.delete, hget, hexp,
      JSMap.hasKey_erase_self]

/-- Witness for the amended C6 on the expired cache at clock 11. -/
theorem delete_returns_physical_presence_witness :
    (∀ (d : LRUCache String Nat) (j : String),
        (d.delete j).1 = JSMap.hasKey d.cache j) ∧
    ((expiredCache.has "k" 11).2.delete "k").1 = false ∧
    ((expiredCache.get "k" 11).2.delete "k").1 = false :=
  delete_returns_physical_presence expiredCache "k" 11 ⟨5, JSTime.num 10⟩
    (by decide) (by decide)

/-- C7: `size` reflects physical occupancy, not logical presence — after
`set k v` at clock `T` on a cache with finite `ttl`, at any clock past
the entry's expiry (and with no operation called in between, so the state
is unchanged and `size`, a pure function of the state with no clock
argument, is unchanged too) the expired-but-unswept entry is still
physically present and counted, even though `get k` and `has k` report
absent. -/
theorem size_counts_expired {V : Type} (c : LRUCache String V) (k : String)
    (v : V) (t T n : Nat)
    (httl : c.ttl = JSTime.num t) (hpast : T + t < n) :
    JSMap.hasKey (c.set k v T).cache k = true ∧
    1 ≤ (c.set k v T).size ∧
    ((c.set k v T).get k n).1 = none ∧
    ((c.set k v T).has k n).1 = false := by
  have hk := LRUCache.hasKey_set_self c k v T
  have hget : JSMap.get (c.set k v T).cache k = some ⟨v, JSTime.num (T + t)⟩ := by
    rw [LRUCache.get_set_self, httl]
    rfl
  have hpastB : JSTime.ltNow n (JSTime.num (T + t)) = true := by
    simp only [JSTime.ltNow, decide_eq_true_eq]
    omega
  refine ⟨hk, JSMap.length_pos_of_hasKey hk, ?_, ?_⟩ <;>
    simp [LRUCache.get, LRUCache.has, hget, hpastB]

/-- Witness for C7 on `ttlCache` with a write at clock 0 probed at
clock 1001. -/
theorem size_counts_expired_witness :
    JSMap.hasKey (ttlCache.set "k" 5 0).cache "k" = true ∧
    1 ≤ (ttlCache.set "k" 5 0).size ∧
    ((ttlCache.set "k" 5 0).get "k" 1001).1 = none ∧
    ((ttlCache.set "k" 5 0).has "k" 1001).1 = false :=
  size_counts_expired ttlCache "k" 5 1000 0 1001 rfl (by decide)

/-- C8: The font resolver's cache key joins family, weight and style with
`:` separators, and its shared cache instance is constructed with
capacity 30 and a 30-minute (1,800,000 ms) TTL. -/
theorem font_cache_key_and_config (family style : String) (weight : Nat) :
    fontCacheKey family weight style
      = family ++ ":" ++ toString weight ++ ":" ++ style ∧
    fontCacheKey "Inter" 700 "normal" = "Inter:700:normal" ∧
    fontCache.maxSize = 30 ∧
    fontCache.ttl = JSTime.num 1800000 :=
  ⟨rfl, rfl, rfl, rfl⟩

/-- C9: `set` always stores the new entry and the newly written entry is
never the eviction victim — for every cache state (any `maxSize`,
including 0), immediately after `set k v` at the same clock `get k`
returns `v`; in particular, with `maxSize = 0` the cache still stores the
entry and `size` becomes 1. -/
theorem set_always_stores {V : Type} (c : LRUCache String V) (k : String)
    (v : V) (n : Nat) (j : String) (w u : Nat) :
    (((c.set k v n).get k n).1 = some v) ∧
    ((LRUCache.new { maxSize := some 0 } : LRUCache String Nat).set j w u).size = 1 ∧
    ((((LRUCache.new { maxSize := some 0 } : LRUCache String Nat).set j w u).get j u).1
      = some w) := by
  have hget := LRUCache.get_set_self c k v n
  have hget0 := LRUCache.get_set_self
    (LRUCache.new { maxSize := some 0 } : LRUCache String Nat) j w u
  refine ⟨?_, rfl, ?_⟩ <;>
    simp [LRUCache.get, hget, hget0, JSTime.ltNow_addTo_self]

/-- C10: The eviction guard conflates an empty cache with the key value
`undefined` — when the least-recently-used entry of a cache at capacity is
keyed by `undefined` (modelled as `none`), setting a fresh key performs no
eviction: the new entry is simply appended and the cache ends with
`maxSize + 1` entries. -/
theorem undefined_key_disables_eviction {V : Type}
    (c : LRUCache (Option String) V) (e : CacheEntry V)
    (l : List (Option String × CacheEntry V)) (k : String) (v : V) (n : Nat)
    (hhead : c.cache = (none, e) :: l)
    (hfull : c.cache.length = c.maxSize)
    (hfresh : JSMap.hasKey c.cache (some k) = false) :
    (c.set (some k) v n).cache
      = c.cache ++ [(some k, ⟨v, JSTime.addTo n c.ttl⟩)] ∧
    (c.set (some k) v n).size = c.maxSize + 1 := by
  have hle : c.maxSize ≤ c.cache.length := le_of_eq hfull.symm
  have hstep1 : c.setStep1 (some k) = c.cache := by
    unfold LRUCache.setStep1
    simp [hfresh]
  have hstep2 : LRUCache.setStep2 c.maxSize c.cache = c.cache := by
    unfold LRUCache.setStep2
    rw [if_pos hle, hhead]
    rfl
  have hcache : (c.set (some k) v n).cache
      = c.cache ++ [(some k, ⟨v, JSTime.addTo n c.ttl⟩)] := by
    show JSMap.insert (LRUCache.setStep2 c.maxSize (c.setStep1 (some k)))
        (some k) _ = _
    rw [hstep1, hstep2, JSMap.insert_eq_append hfresh]
  refine ⟨hcache, ?_⟩
  show (c.set (some k) v n).cache.length = c.maxSize + 1
  rw [hcache]
  simp [hfull]

/-- Witness for C10 on the capacity-1 cache whose only entry is keyed by
`undefined`. -/
theorem undefined_key_disables_eviction_witness :
    (undefKeyCache.set (some "a") 7 3).cache
      = undefKeyCache.cache ++ [(some "a", ⟨7, JSTime.addTo 3 undefKeyCache.ttl⟩)] ∧
    (undefKeyCache.set (some "a") 7 3).size = undefKeyCache.maxSize + 1 :=
  undefined_key_disables_eviction undefKeyCache ⟨0, JSTime.inf⟩ [] "a" 7 3
    rfl rfl (by decide)
